import Mathlib

/-!
A shallow embedding of `src/Repository.ts`: a generic CRUD repository over a
browser local-storage key-value store.  One `Repository` instance touches a
single storage key (its collection name), so the store is modelled as the
optional value stored under that one key.  The `verbose` flag only drives a
diagnostic `console.warn` inside `update` and has no observable effect on the
store or the returned values, so it is not modelled.  Each mutating operation
is modelled as a function from the current stored value to an `OpResult`
carrying the value returned to the caller (or the exception), the stored value
after the call, and the number of `localStorage.setItem` calls the operation
performed.
-/

set_option autoImplicit false

namespace LocalRepo

/-- A JSON scalar value, as produced by `JSON.parse` for leaf positions.
Document fields in the source are `unknown`; the claims only ever distinguish
string values (JavaScript strict equality `===` against a string is decided by
string identity and is false for every non-string), so nested arrays and
objects are not modelled and scalars suffice. -/
inductive Val where
  | vNull : Val
  | vBool : Bool → Val
  | vNum : Int → Val
  | vStr : String → Val
deriving DecidableEq

/-- A document: a JavaScript object, i.e. an insertion-ordered sequence of
string-keyed fields.  `JSON.parse` and object literals produce unique keys;
the embedding does not force that, and theorems needing it hypothesise it. -/
abbrev Doc := List (String × Val)

/-- The distinguished identifier key of `BaseDoc`. -/
def idKey : String := "_id"

/-- Property lookup `obj[k]`: the first field named `k`, `none` when absent
(JavaScript `undefined`). -/
def getField (d : Doc) (k : String) : Option Val :=
  match d with
  | [] => none
  | (k', v) :: rest => if k' = k then some v else getField rest k

/-- Property assignment `obj[k] = v`: overwrites the existing field in place
(keeping its position), or appends a fresh field at the end, exactly as
JavaScript property assignment orders keys. -/
def setField (d : Doc) (k : String) (v : Val) : Doc :=
  match d with
  | [] => [(k, v)]
  | (k', v') :: rest => if k' = k then (k', v) :: rest else (k', v') :: setField rest k v

/-- Rest-destructuring `const { _id: x, ...rest } = obj` for the removed key:
all fields named `k` are dropped, the others keep their order. -/
def removeField (d : Doc) (k : String) : Doc :=
  match d with
  | [] => []
  | (k', v') :: rest => if k' = k then removeField rest k else (k', v') :: removeField rest k

/-- Object spread `{ ...d, ...w }`: the fields of `w` are assigned onto `d`
left to right. -/
def mergeDoc (d w : Doc) : Doc :=
  w.foldl (fun acc kv => setField acc kv.1 kv.2) d

/-- The key list of a document. -/
def keys (d : Doc) : List String :=
  d.map Prod.fst

/-- The value of the LAST field named `k`, used to reason about `mergeDoc`
(later spread entries win). -/
def lastField (d : Doc) (k : String) : Option Val :=
  match d with
  | [] => none
  | (k', v) :: rest =>
    match lastField rest k with
    | some v'' => some v''
    | none => if k' = k then some v else none

/-- JavaScript truthiness test `!x` (negated) on a possibly-absent field value:
`undefined`, `null`, `false`, `0` and the empty string are falsy. -/
def falsy (v : Option Val) : Bool :=
  match v with
  | none => true
  | some .vNull => true
  | some (.vBool b) => !b
  | some (.vNum n) => n == 0
  | some (.vStr s) => s == ""

/-- `item._id === i` for a string `i`: strict equality holds exactly when the
`_id` field is present, is a string, and equals `i`. -/
def jsIdEq (d : Doc) (i : String) : Bool :=
  match getField d idKey with
  | some (.vStr s) => s == i
  | _ => false

/-- `item[key] === value` for a string `value` (query values are
`Record<string, string>`). -/
def fieldEqStr (d : Doc) (k v : String) : Bool :=
  match getField d k with
  | some (.vStr s) => s == v
  | _ => false

/-- `Object.entries(query).every(([key, value]) => item[key] === value)`. -/
def matchesQuery (q : List (String × String)) (d : Doc) : Bool :=
  q.all (fun kv => fieldEqStr d kv.1 kv.2)

/-- `_ids.includes(item._id)` where `_ids : string[]`: true exactly when the
`_id` field is a string occurring in the list. -/
def idIncluded (ids : List String) (d : Doc) : Bool :=
  match getField d idKey with
  | some (.vStr s) => ids.contains s
  | _ => false

/-- The string stored under the collection key, classified by how
`JSON.parse(stored || '[]')` treats it.  `emptyStr` is the empty string: it is
NOT valid JSON, but being falsy it is replaced by `'[]'` before parsing.
`jsonArr docs` stands for any string parsing to a JSON array of objects (the
shape every write of this module produces).  `malformed` stands for a
non-empty string rejected by `JSON.parse`.  Valid-JSON values of other shapes
(for example a bare number) are never written by the module and are outside
the scope of the claims. -/
inductive StoredVal where
  | emptyStr : StoredVal
  | jsonArr : List Doc → StoredVal
  | malformed : StoredVal
deriving DecidableEq

/-- `JSON.parse(localStorage.getItem(collection) || '[]')`: an absent key
(`getItem` returns `null`) and the empty string both fall back to `'[]'`;
a malformed non-empty string throws. -/
def readAll (st : Option StoredVal) : Except Unit (List Doc) :=
  match st with
  | none => .ok []
  | some .emptyStr => .ok []
  | some (.jsonArr items) => .ok items
  | some .malformed => .error ()

/-- Outcome of one repository call: the caller-visible result (or the
propagated exception), the stored value after the call, and how many
`localStorage.setItem` calls it made. -/
structure OpResult (α : Type) where
  store : Option StoredVal
  writes : Nat
  result : Except Unit α

namespace Repository

/-- `Repository.read`: parse the whole collection, then filter by the shallow
query if one is given.  The source performs no `setItem`, which the embedding
reflects by not returning a store. -/
def read (st : Option StoredVal) (query : Option (List (String × String))) :
    Except Unit (List Doc) :=
  match readAll st with
  | .error e => .error e
  | .ok items =>
    match query with
    | none => .ok items
    | some q => .ok (items.filter (fun item => matchesQuery q item))

/-- The `newItems.forEach` loop of `create`: give each document with a falsy
`_id` the next freshly generated identifier.  `uuid` is the `uuidv4` generator
modelled as an oracle indexed by how many identifiers were drawn so far; the
second component is the next unused index. -/
def assignIds (uuid : Nat → String) (n : Nat) : List Doc → List Doc × Nat
  | [] => ([], n)
  | d :: ds =>
    if falsy (getField d idKey) then
      let r := assignIds uuid (n + 1) ds
      (setField d idKey (.vStr (uuid n)) :: r.1, r.2)
    else
      let r := assignIds uuid n ds
      (d :: r.1, r.2)

/-- The `NewDoc<T> | NewDoc<T>[]` argument of `create`. -/
def wrapArg (arg : Doc ⊕ List Doc) : List Doc :=
  match arg with
  | .inl d => [d]
  | .inr ds => ds

/-- `Repository.create`: read the collection, wrap a single document into an
array, assign missing identifiers, persist old ++ new, and return the new
documents. -/
def create (uuid : Nat → String) (st : Option StoredVal) (newDocs : Doc ⊕ List Doc) :
    OpResult (List Doc) :=
  match readAll st with
  | .error e => ⟨st, 0, .error e⟩
  | .ok items =>
    let newItems := (assignIds uuid 0 (wrapArg newDocs)).1
    ⟨some (.jsonArr (items ++ newItems)), 1, .ok newItems⟩

/-- `Repository.update`: empty identifier is an immediate no-op; otherwise
find the first document whose `_id` strictly equals the identifier, strip
`_id` from the update object, spread-merge it over the stored document, and
persist. -/
def update (st : Option StoredVal) (i : String) (upd : Doc) : OpResult Nat :=
  if i = "" then ⟨st, 0, .ok 0⟩
  else
    match readAll st with
    | .error e => ⟨st, 0, .error e⟩
    | .ok items =>
      match items.findIdx? (fun item => jsIdEq item i) with
      | none => ⟨st, 0, .ok 0⟩
      | some index =>
        let updateWithoutId := removeField upd idKey
        let merged := mergeDoc ((items.get? index).getD []) updateWithoutId
        ⟨some (.jsonArr (items.set index merged)), 1, .ok 1⟩

/-- The `docs.forEach` loop of `updateMany`: run `update` per entry, threading
the store, accumulating the count of successful updates and the number of
writes; an exception from `update` escapes the loop at once.  Each entry is
the destructuring `({ _id, ...doc })` of one `UpdateManyDoc`, whose type makes
`_id` a mandatory string. -/
def updateManyGo : List (String × Doc) → Option StoredVal → Nat → Nat → OpResult Nat
  | [], st, count, w => ⟨st, w, .ok count⟩
  | e :: rest, st, count, w =>
    let r := update st e.1 e.2
    match r.result with
    | .error err => ⟨r.store, w + r.writes, .error err⟩
    | .ok n => updateManyGo rest r.store (count + n) (w + r.writes)

/-- `Repository.updateMany`: 0 immediately on an empty input, otherwise the
`forEach` loop. -/
def updateMany (st : Option StoredVal) (entries : List (String × Doc)) : OpResult Nat :=
  if entries.length = 0 then ⟨st, 0, .ok 0⟩
  else updateManyGo entries st 0 0

/-- `Repository.delete`: empty identifier is an immediate no-op; otherwise
keep the documents whose `_id` is not strictly equal to the identifier, return
0 without writing when nothing was removed, else persist and return 1. -/
def delete (st : Option StoredVal) (i : String) : OpResult Nat :=
  if i = "" then ⟨st, 0, .ok 0⟩
  else
    match readAll st with
    | .error e => ⟨st, 0, .error e⟩
    | .ok items =>
      let filteredItems := items.filter (fun item => !(jsIdEq item i))
      if items.length = filteredItems.length then ⟨st, 0, .ok 0⟩
      else ⟨some (.jsonArr filteredItems), 1, .ok 1⟩

/-- `Repository.deleteMany`: 0 immediately on an empty input; otherwise keep
the documents whose `_id` is not in the list, return 0 without writing when
nothing was removed, else persist and return the number removed. -/
def deleteMany (st : Option StoredVal) (ids : List String) : OpResult Nat :=
  if ids.length = 0 then ⟨st, 0, .ok 0⟩
  else
    match readAll st with
    | .error e => ⟨st, 0, .error e⟩
    | .ok items =>
      let filteredItems := items.filter (fun item => !(idIncluded ids item))
      let count := items.length - filteredItems.length
      if count = 0 then ⟨st, 0, .ok 0⟩
      else ⟨some (.jsonArr filteredItems), 1, .ok count⟩

end Repository

/-- Specification-side runner for `updateMany`, following the spec's words:
apply `update` once per entry, in input order, collecting the per-call
results; the third component records whether a call failed partway (earlier
updates stay persisted in the returned store). -/
def specRunUpdates (st : Option StoredVal) :
    List (String × Doc) → Option StoredVal × List Nat × Bool
  | [] => (st, [], false)
  | e :: rest =>
    match Repository.update st e.1 e.2 with
    | ⟨st', _, .ok n⟩ =>
      let r := specRunUpdates st' rest
      (r.1, n :: r.2.1, r.2.2)
    | ⟨st', _, .error _⟩ => (st', [], true)

/-! ### Field-access lemmas -/

theorem getField_setField (d : Doc) (k k' : String) (v : Val) :
    getField (setField d k v) k' = if k' = k then some v else getField d k' := by
  induction d with
  | nil =>
    by_cases h : k = k'
    · subst h; simp [setField, getField]
    · simp [setField, getField, h, Ne.symm h]
  | cons hd rest ih =>
    obtain ⟨a, w⟩ := hd
    by_cases h1 : a = k
    · subst h1
      by_cases h2 : a = k'
      · subst h2; simp [setField, getField]
      · simp [setField, getField, h2, Ne.symm h2]
    · by_cases h2 : a = k'
      · subst h2; simp [setField, getField, h1]
      · simp [setField, getField, h1, h2, ih]

theorem getField_removeField (d : Doc) (k k' : String) :
    getField (removeField d k) k' = if k' = k then none else getField d k' := by
  induction d with
  | nil => simp [removeField, getField]
  | cons hd rest ih =>
    obtain ⟨a, w⟩ := hd
    by_cases h1 : a = k
    · subst h1
      by_cases h2 : k' = a
      · subst h2; simp [removeField, getField, ih]
      · simp [removeField, getField, h2, Ne.symm h2, ih]
    · by_cases h2 : a = k'
      · subst h2
        have hne : ¬ a = k := h1
        simp [removeField, getField, h1, fun hh : a = k => h1 hh]
      · simp [removeField, getField, h1, h2, ih]

theorem getField_mergeDoc (d w : Doc) (k : String) :
    getField (mergeDoc d w) k =
      match lastField w k with
      | some v => some v
      | none => getField d k := by
  induction w generalizing d with
  | nil => simp [mergeDoc, lastField]
  | cons hd rest ih =>
    obtain ⟨a, v⟩ := hd
    have hstep : mergeDoc d ((a, v) :: rest) = mergeDoc (setField d a v) rest := rfl
    rw [hstep, ih]
    by_cases h : a = k
    · subst h
      cases hl : lastField rest a <;> simp [lastField, hl, getField_setField]
    · cases hl : lastField rest k <;>
        simp [lastField, hl, getField_setField, h, Ne.symm h]

theorem lastField_eq_none_iff (d : Doc) (k : String) :
    lastField d k = none ↔ getField d k = none := by
  induction d with
  | nil => simp [lastField, getField]
  | cons hd rest ih =>
    obtain ⟨a, v⟩ := hd
    by_cases h : a = k
    · subst h
      cases hl : lastField rest a <;> simp_all [lastField, getField]
    · cases hl : lastField rest k <;> simp_all [lastField, getField, h]

theorem getField_eq_none_iff (d : Doc) (k : String) :
    getField d k = none ↔ k ∉ keys d := by
  induction d with
  | nil => simp [getField, keys]
  | cons hd rest ih =>
    obtain ⟨a, v⟩ := hd
    by_cases h : a = k
    · subst h; simp [getField, keys]
    · simp [getField, keys, h, Ne.symm h, ih]

theorem keys_removeField_sublist (d : Doc) (k : String) :
    (keys (removeField d k)).Sublist (keys d) := by
  induction d with
  | nil => simp [removeField, keys]
  | cons hd rest ih =>
    obtain ⟨a, v⟩ := hd
    by_cases h : a = k
    · simp only [removeField, if_pos h, keys, List.map_cons]
      exact ih.trans (List.sublist_cons_self _ _)
    · simp only [removeField, if_neg h, keys, List.map_cons]
      exact ih.cons₂ _

theorem lastField_eq_getField (d : Doc) (k : String) (h : (keys d).Nodup) :
    lastField d k = getField d k := by
  induction d with
  | nil => rfl
  | cons hd rest ih =>
    obtain ⟨a, v⟩ := hd
    rw [keys, List.map_cons, List.nodup_cons] at h
    obtain ⟨hnotmem, hrest⟩ := h
    by_cases hk : a = k
    · subst hk
      have h1 : getField rest a = none := (getField_eq_none_iff rest a).mpr hnotmem
      have h2 : lastField rest a = none := (lastField_eq_none_iff rest a).mpr h1
      simp [lastField, getField, h2]
    · have := ih hrest
      cases hg : getField rest k <;> simp_all [lastField, getField, hk]

theorem lastField_removeField_self (d : Doc) (k : String) :
    lastField (removeField d k) k = none := by
  refine (lastField_eq_none_iff _ _).mpr ?_
  rw [getField_removeField]
  simp

/-! ### List helpers -/

theorem length_filter_not_add_countP {α : Type} (p : α → Bool) (l : List α) :
    (l.filter (fun x => !p x)).length + l.countP p = l.length := by
  induction l with
  | nil => rfl
  | cons x rest ih =>
    by_cases h : p x
    · simp [List.countP_cons, h]
      omega
    · simp only [List.filter_cons]
      simp [List.countP_cons, h]
      omega

/-! ### `assignIds` lemmas -/

theorem assignIds_length (uuid : Nat → String) (n : Nat) (ds : List Doc) :
    (Repository.assignIds uuid n ds).1.length = ds.length := by
  induction ds generalizing n with
  | nil => rfl
  | cons d rest ih =>
    by_cases h : falsy (getField d idKey) <;> simp [Repository.assignIds, h, ih]

theorem assignIds_get?_of_not_falsy (uuid : Nat → String) (n idx : Nat) (ds : List Doc)
    (d : Doc) (hd : ds.get? idx = some d) (hf : falsy (getField d idKey) = false) :
    (Repository.assignIds uuid n ds).1.get? idx = some d := by
  induction ds generalizing n idx with
  | nil => simp at hd
  | cons d0 rest ih =>
    cases idx with
    | zero =>
      simp only [List.get?] at hd
      obtain rfl : d0 = d := by exact Option.some.inj hd
      simp [Repository.assignIds, hf]
    | succ idx =>
      simp only [List.get?] at hd
      by_cases h : falsy (getField d0 idKey)
      · simpa [Repository.assignIds, h] using ih (n + 1) idx hd
      · simpa [Repository.assignIds, h] using ih n idx hd

/-! ### `updateMany` runner lemmas -/

theorem updateManyGo_spec (l : List (String × Doc)) (st : Option StoredVal) (c w : Nat)
    (h : (specRunUpdates st l).2.2 = false) :
    (Repository.updateManyGo l st c w).result = .ok (c + (specRunUpdates st l).2.1.sum) ∧
    (Repository.updateManyGo l st c w).store = (specRunUpdates st l).1 := by
  induction l generalizing st c w with
  | nil => simp [Repository.updateManyGo, specRunUpdates]
  | cons e rest ih =>
    rcases hr : Repository.update st e.1 e.2 with ⟨st', w', res⟩
    cases res with
    | error err =>
      exfalso
      rw [specRunUpdates, hr] at h
      simp at h
    | ok n =>
      rw [specRunUpdates, hr] at h ⊢
      simp only at h
      have := ih st' (c + n) (w + w') h
      simp only [Repository.updateManyGo, hr]
      simp only [List.sum_cons]
      refine ⟨?_, this.2⟩
      rw [this.1]
      congr 1
      omega

theorem specRunUpdates_length (l : List (String × Doc)) (st : Option StoredVal)
    (h : (specRunUpdates st l).2.2 = false) :
    (specRunUpdates st l).2.1.length = l.length := by
  induction l generalizing st with
  | nil => rfl
  | cons e rest ih =>
    rcases hr : Repository.update st e.1 e.2 with ⟨st', w', res⟩
    cases res with
    | error err =>
      exfalso
      rw [specRunUpdates, hr] at h
      simp at h
    | ok n =>
      rw [specRunUpdates, hr] at h ⊢
      simpa using ih st' h

theorem jsIdEq_eq_true_iff (d : Doc) (i : String) :
    jsIdEq d i = true ↔ getField d idKey = some (.vStr i) := by
  unfold jsIdEq
  cases hg : getField d idKey with
  | none => simp
  | some v => cases v <;> simp [beq_iff_eq]

/-! ### Claim theorems -/

/-- C2: `update(id, upd)` with an identifier that is the empty string, or that
is not the `_id` of any stored document, returns 0 and leaves the stored
value untouched with no `setItem` call. -/
theorem C2_update_absent_id_noop (st : Option StoredVal) (i : String) (upd : Doc)
    (h : i = "" ∨ ∃ items, readAll st = .ok items ∧ ∀ d ∈ items, jsIdEq d i = false) :
    Repository.update st i upd = ⟨st, 0, .ok 0⟩ := by
  by_cases hi : i = ""
  · simp [Repository.update, hi]
  · rcases h with h | ⟨items, hst, hall⟩
    · exact absurd h hi
    · have hnone : items.findIdx? (fun item => jsIdEq item i) = none :=
        List.findIdx?_eq_none_iff.mpr hall
      simp [Repository.update, hi, hst, hnone]

/-- C2 witness: a concrete one-document collection and a missing identifier. -/
theorem C2_witness :
    Repository.update (some (.jsonArr [[(idKey, Val.vStr "a")]])) "b" [("x", Val.vStr "1")]
      = ⟨some (.jsonArr [[(idKey, Val.vStr "a")]]), 0, .ok 0⟩ :=
  C2_update_absent_id_noop _ _ _ (Or.inr ⟨_, rfl, by decide⟩)

/-- C8 counterexample: the stored empty string is not valid JSON
(`JSON.parse` rejects the empty string), yet `read` does not abort with an
exception: the empty string is falsy, so `getItem(...) || '[]'` replaces it
before parsing and the call returns the empty collection. -/
theorem C8_counterexample :
    Repository.read (some .emptyStr) none = .ok ([] : List Doc) := rfl

/-- C8 (amended): for a stored value that is a non-empty string rejected by
`JSON.parse`, every operation that actually reaches the internal read — any
`read` or `create`; `update` and `delete` with a non-empty identifier;
`updateMany` on a non-empty input whose first entry has a non-empty
identifier; `deleteMany` on a non-empty input — propagates the parse
exception to the caller and performs no store write. -/
theorem C8_malformed_propagates (q : Option (List (String × String)))
    (uuid : Nat → String) (arg : Doc ⊕ List Doc) (i : String) (upd : Doc)
    (e : String × Doc) (entries : List (String × Doc)) (i0 : String) (ids : List String)
    (hi : i ≠ "") (he : e.1 ≠ "") :
    Repository.read (some .malformed) q = .error () ∧
    Repository.create uuid (some .malformed) arg = ⟨some .malformed, 0, .error ()⟩ ∧
    Repository.update (some .malformed) i upd = ⟨some .malformed, 0, .error ()⟩ ∧
    Repository.updateMany (some .malformed) (e :: entries)
      = ⟨some .malformed, 0, .error ()⟩ ∧
    Repository.delete (some .malformed) i = ⟨some .malformed, 0, .error ()⟩ ∧
    Repository.deleteMany (some .malformed) (i0 :: ids)
      = ⟨some .malformed, 0, .error ()⟩ := by
  refine ⟨rfl, rfl, ?_, ?_, ?_, ?_⟩
  · simp [Repository.update, hi, readAll]
  · simp [Repository.updateMany, Repository.updateManyGo, Repository.update, he, readAll]
  · simp [Repository.delete, hi, readAll]
  · simp [Repository.deleteMany, readAll]

/-- C8 witness: concrete instantiation on the malformed stored value. -/
theorem C8_witness :
    Repository.read (some .malformed) none = .error () ∧
    Repository.create (fun _ => "u") (some .malformed) (.inr [])
      = ⟨some .malformed, 0, .error ()⟩ ∧
    Repository.update (some .malformed) "a" [] = ⟨some .malformed, 0, .error ()⟩ ∧
    Repository.updateMany (some .malformed) [("a", [])]
      = ⟨some .malformed, 0, .error ()⟩ ∧
    Repository.delete (some .malformed) "a" = ⟨some .malformed, 0, .error ()⟩ ∧
    Repository.deleteMany (some .malformed) ["a"] = ⟨some .malformed, 0, .error ()⟩ :=
  C8_malformed_propagates none (fun _ => "u") (.inr []) "a" [] ("a", []) [] "a" []
    (by decide) (by decide)

/-- C9: `deleteMany` on a non-empty identifier list matching no stored
document returns 0 and performs no write: the stored value is left untouched
byte for byte. -/
theorem C9_deleteMany_no_match_noop (st : Option StoredVal) (ids : List String)
    (items : List Doc) (hne : ids ≠ [])
    (hst : readAll st = .ok items)
    (hnomatch : ∀ d ∈ items, idIncluded ids d = false) :
    Repository.deleteMany st ids = ⟨st, 0, .ok 0⟩ := by
  have hlen : ¬ ids.length = 0 := by
    cases ids with
    | nil => exact absurd rfl hne
    | cons a l => simp
  have hfilter : items.filter (fun item => !(idIncluded ids item)) = items :=
    List.filter_eq_self.mpr (by intro d hd; simp [hnomatch d hd])
  simp [Repository.deleteMany, hlen, hst, hfilter]

/-- C9 witness: one stored document, one non-matching identifier. -/
theorem C9_witness :
    Repository.deleteMany (some (.jsonArr [[(idKey, Val.vStr "a")]])) ["b"]
      = ⟨some (.jsonArr [[(idKey, Val.vStr "a")]]), 0, .ok 0⟩ :=
  C9_deleteMany_no_match_noop _ _ _ (by decide) rfl (by decide)

/-- C10: `create([])` on any parseable collection state returns the empty
sequence and still performs exactly one store write, persisting the existing
documents back unchanged under the collection key. -/
theorem C10_create_empty_writes (uuid : Nat → String) (st : Option StoredVal)
    (items : List Doc) (hst : readAll st = .ok items) :
    Repository.create uuid st (.inr []) = ⟨some (.jsonArr items), 1, .ok []⟩ := by
  simp [Repository.create, hst, Repository.assignIds, Repository.wrapArg]

/-- C10 witness: a concrete one-document collection. -/
theorem C10_witness :
    Repository.create (fun _ => "u") (some (.jsonArr [[(idKey, Val.vStr "a")]])) (.inr [])
      = ⟨some (.jsonArr [[(idKey, Val.vStr "a")]]), 1, .ok []⟩ :=
  C10_create_empty_writes (fun _ => "u") _ _ rfl

/-- C3 counterexample: a document supplied to `create` with an explicitly
present `_id` field holding the empty string does NOT keep it: the empty
string is falsy, so the source's `if (!item._id)` guard fires and the `_id` is
overwritten with a freshly generated identifier. -/
theorem C3_counterexample :
    (Repository.create (fun _ => "fresh") (some (.jsonArr []))
        (.inr [[(idKey, Val.vStr "")]])).result
      = .ok [[(idKey, Val.vStr "fresh")]] ∧ ("fresh" : String) ≠ "" :=
  ⟨rfl, by decide⟩

/-- C3 (amended): every input document whose `_id` field is explicitly present
with a NON-EMPTY string value is preserved exactly as supplied, at its
position in the batch, both in the returned sequence and in the persisted
collection; no fresh identifier is generated for it. -/
theorem C3_create_preserves_nonempty_id (uuid : Nat → String) (st : Option StoredVal)
    (items docs : List Doc) (idx : Nat) (d : Doc) (s : String)
    (hst : readAll st = .ok items)
    (hd : docs.get? idx = some d)
    (hid : getField d idKey = some (.vStr s)) (hs : s ≠ "") :
    ∃ out, (Repository.create uuid st (.inr docs)).result = .ok out ∧
      out.length = docs.length ∧
      out.get? idx = some d ∧
      Repository.read (Repository.create uuid st (.inr docs)).store none
        = .ok (items ++ out) := by
  have hfalse : falsy (getField d idKey) = false := by
    rw [hid]
    simp [falsy, hs]
  refine ⟨(Repository.assignIds uuid 0 docs).1, ?_, ?_, ?_, ?_⟩
  · simp [Repository.create, hst, Repository.wrapArg]
  · exact assignIds_length uuid 0 docs
  · exact assignIds_get?_of_not_falsy uuid 0 idx docs d hd hfalse
  · have hcreate : (Repository.create uuid st (.inr docs)).store
        = some (.jsonArr (items ++ (Repository.assignIds uuid 0 docs).1)) := by
      simp [Repository.create, hst, Repository.wrapArg]
    rw [hcreate]
    rfl

/-- C3 witness: a batch of two documents whose second entry carries the
explicit identifier "keep". -/
theorem C3_witness :
    ∃ out,
      (Repository.create (fun _ => "u") (some (.jsonArr []))
          (.inr [[("t", Val.vStr "1")], [(idKey, Val.vStr "keep")]])).result = .ok out ∧
      out.length = ([[("t", Val.vStr "1")], [(idKey, Val.vStr "keep")]] : List Doc).length ∧
      out.get? 1 = some [(idKey, Val.vStr "keep")] ∧
      Repository.read (Repository.create (fun _ => "u") (some (.jsonArr []))
          (.inr [[("t", Val.vStr "1")], [(idKey, Val.vStr "keep")]])).store none
        = .ok ([] ++ out) :=
  C3_create_preserves_nonempty_id (fun _ => "u") _ _ _ 1 _ "keep" rfl rfl rfl (by decide)

/-- C6: with a filter, `read` returns exactly the stored documents for which
every filter key's value strictly equals the document's value at that key,
all conditions conjoined, in stored order (the result is a sublist of the
stored sequence).  The source performs no `setItem` during `read`, which the
embedding reflects by `read` returning no store value. -/
theorem C6_read_filter (st : Option StoredVal) (items : List Doc)
    (q : List (String × String)) (hst : readAll st = .ok items) :
    Repository.read st (some q) = .ok (items.filter (fun d => matchesQuery q d)) ∧
    (items.filter (fun d => matchesQuery q d)).Sublist items ∧
    (∀ d, d ∈ items.filter (fun d => matchesQuery q d) ↔
      d ∈ items ∧ ∀ kv ∈ q, fieldEqStr d kv.1 kv.2 = true) := by
  refine ⟨?_, List.filter_sublist _, ?_⟩
  · simp [Repository.read, hst]
  · intro d
    simp [List.mem_filter, matchesQuery, List.all_eq_true]

/-- C6 witness: a two-document collection filtered on a payload field. -/
theorem C6_witness :
    Repository.read
        (some (.jsonArr [[(idKey, Val.vStr "a"), ("t", Val.vStr "x")],
                         [(idKey, Val.vStr "b"), ("t", Val.vStr "y")]]))
        (some [("t", "x")])
      = .ok ([[(idKey, Val.vStr "a"), ("t", Val.vStr "x")],
              [(idKey, Val.vStr "b"), ("t", Val.vStr "y")]].filter
          (fun d => matchesQuery [("t", "x")] d)) ∧
    (([[(idKey, Val.vStr "a"), ("t", Val.vStr "x")],
       [(idKey, Val.vStr "b"), ("t", Val.vStr "y")]] : List Doc).filter
        (fun d => matchesQuery [("t", "x")] d)).Sublist
      [[(idKey, Val.vStr "a"), ("t", Val.vStr "x")],
       [(idKey, Val.vStr "b"), ("t", Val.vStr "y")]] ∧
    (∀ d, d ∈ ([[(idKey, Val.vStr "a"), ("t", Val.vStr "x")],
                [(idKey, Val.vStr "b"), ("t", Val.vStr "y")]] : List Doc).filter
          (fun d => matchesQuery [("t", "x")] d) ↔
      d ∈ ([[(idKey, Val.vStr "a"), ("t", Val.vStr "x")],
            [(idKey, Val.vStr "b"), ("t", Val.vStr "y")]] : List Doc) ∧
      ∀ kv ∈ ([("t", "x")] : List (String × String)), fieldEqStr d kv.1 kv.2 = true) :=
  C6_read_filter _ _ _ rfl

/-- C1: on any parseable pre-existing state and any two input documents,
`create([a, b])` succeeds and returns exactly two documents: `a` and `b`, each
with a populated (truthy) `_id` and all other fields untouched; a subsequent
unfiltered `read` on the resulting store returns the pre-existing documents
followed by exactly those two, in that relative order.  The hypothesis on
`uuid` reflects that `uuidv4()` always returns a non-empty string. -/
theorem C1_create_then_read (uuid : Nat → String) (st : Option StoredVal)
    (pre : List Doc) (a b : Doc)
    (hst : readAll st = .ok pre) (huuid : ∀ n, uuid n ≠ "") :
    ∃ a' b',
      (Repository.create uuid st (.inr [a, b])).result = .ok [a', b'] ∧
      Repository.read (Repository.create uuid st (.inr [a, b])).store none
        = .ok (pre ++ [a', b']) ∧
      falsy (getField a' idKey) = false ∧
      falsy (getField b' idKey) = false ∧
      (∀ k, k ≠ idKey → getField a' k = getField a k) ∧
      (∀ k, k ≠ idKey → getField b' k = getField b k) := by
  have hfals : ∀ (d : Doc) (n : Nat),
      falsy (getField (setField d idKey (.vStr (uuid n))) idKey) = false := by
    intro d n
    rw [getField_setField, if_pos rfl]
    simp [falsy, huuid n]
  have hother : ∀ (d : Doc) (n : Nat) (k : String), k ≠ idKey →
      getField (setField d idKey (.vStr (uuid n))) k = getField d k := by
    intro d n k hk
    rw [getField_setField, if_neg hk]
  have hread : ∀ (xs : List Doc), Repository.read (some (.jsonArr xs)) none = .ok xs :=
    fun xs => rfl
  by_cases ha : falsy (getField a idKey) <;> by_cases hb : falsy (getField b idKey)
  · refine ⟨setField a idKey (.vStr (uuid 0)), setField b idKey (.vStr (uuid 1)),
      ?_, ?_, hfals a 0, hfals b 1, fun k hk => hother a 0 k hk, fun k hk => hother b 1 k hk⟩
    · simp [Repository.create, hst, Repository.wrapArg, Repository.assignIds, ha, hb]
    · have hc : (Repository.create uuid st (.inr [a, b])).store
          = some (.jsonArr (pre ++ [setField a idKey (.vStr (uuid 0)),
              setField b idKey (.vStr (uuid 1))])) := by
        simp [Repository.create, hst, Repository.wrapArg, Repository.assignIds, ha, hb]
      rw [hc, hread]
  · refine ⟨setField a idKey (.vStr (uuid 0)), b,
      ?_, ?_, hfals a 0, by simpa using hb, fun k hk => hother a 0 k hk, fun k hk => rfl⟩
    · simp [Repository.create, hst, Repository.wrapArg, Repository.assignIds, ha, hb]
    · have hc : (Repository.create uuid st (.inr [a, b])).store
          = some (.jsonArr (pre ++ [setField a idKey (.vStr (uuid 0)), b])) := by
        simp [Repository.create, hst, Repository.wrapArg, Repository.assignIds, ha, hb]
      rw [hc, hread]
  · refine ⟨a, setField b idKey (.vStr (uuid 0)),
      ?_, ?_, by simpa using ha, hfals b 0, fun k hk => rfl, fun k hk => hother b 0 k hk⟩
    · simp [Repository.create, hst, Repository.wrapArg, Repository.assignIds, ha, hb]
    · have hc : (Repository.create uuid st (.inr [a, b])).store
          = some (.jsonArr (pre ++ [a, setField b idKey (.vStr (uuid 0))])) := by
        simp [Repository.create, hst, Repository.wrapArg, Repository.assignIds, ha, hb]
      rw [hc, hread]
  · refine ⟨a, b,
      ?_, ?_, by simpa using ha, by simpa using hb, fun k hk => rfl, fun k hk => rfl⟩
    · simp [Repository.create, hst, Repository.wrapArg, Repository.assignIds, ha, hb]
    · have hc : (Repository.create uuid st (.inr [a, b])).store
          = some (.jsonArr (pre ++ [a, b])) := by
        simp [Repository.create, hst, Repository.wrapArg, Repository.assignIds, ha, hb]
      rw [hc, hread]

/-- C1 witness: one pre-existing document; `a` lacks `_id`, `b` supplies one. -/
theorem C1_witness :
    ∃ a' b',
      (Repository.create (fun _ => "u")
          (some (.jsonArr [[(idKey, Val.vStr "old")]]))
          (.inr [[("t", Val.vStr "1")], [(idKey, Val.vStr "B")]])).result = .ok [a', b'] ∧
      Repository.read (Repository.create (fun _ => "u")
          (some (.jsonArr [[(idKey, Val.vStr "old")]]))
          (.inr [[("t", Val.vStr "1")], [(idKey, Val.vStr "B")]])).store none
        = .ok ([[(idKey, Val.vStr "old")]] ++ [a', b']) ∧
      falsy (getField a' idKey) = false ∧
      falsy (getField b' idKey) = false ∧
      (∀ k, k ≠ idKey → getField a' k = getField [("t", Val.vStr "1")] k) ∧
      (∀ k, k ≠ idKey → getField b' k = getField [(idKey, Val.vStr "B")] k) :=
  C1_create_then_read (fun _ => "u") _ _ _ _ rfl
    (fun n => by
      show ("u" : String) ≠ ""
      decide)

/-- C4 counterexample: with two stored documents sharing `_id` "x" (`create`
never checks identifier uniqueness, so such states are reachable),
`delete("x")` removes BOTH documents — the collection shrinks by two — but
still returns 1, so the returned value is not the count of documents
deleted. -/
theorem C4_counterexample :
    Repository.delete
        (some (.jsonArr [[(idKey, Val.vStr "x")], [(idKey, Val.vStr "x")]])) "x"
      = ⟨some (.jsonArr []), 1, .ok 1⟩ ∧
    ([[(idKey, Val.vStr "x")], [(idKey, Val.vStr "x")]] : List Doc).length
        - ([] : List Doc).length = 2 :=
  ⟨rfl, rfl⟩

/-- C4 (amended): on a parseable state in which at most one stored document
matches the identifier (guaranteed by the data model's unique-`_id`
invariant), `delete` returns exactly the number of documents deleted, which is
0 or 1; after a successful delete, `read()` returns no document with that
`_id`, and a second `delete` with the same identifier returns 0. -/
theorem C4_delete_correct (st : Option StoredVal) (i : String) (items : List Doc)
    (hst : readAll st = .ok items)
    (huniq : items.countP (fun d => jsIdEq d i) ≤ 1) :
    ∃ n items2,
      (Repository.delete st i).result = .ok n ∧
      readAll (Repository.delete st i).store = .ok items2 ∧
      n = items.length - items2.length ∧ n ≤ 1 ∧
      (n = 1 →
        Repository.read (Repository.delete st i).store none = .ok items2 ∧
        (∀ d ∈ items2, jsIdEq d i = false) ∧
        (Repository.delete (Repository.delete st i).store i).result = .ok 0) := by
  by_cases hi : i = ""
  · refine ⟨0, items, ?_, ?_, by omega, by omega, ?_⟩
    · simp [Repository.delete, hi]
    · simp [Repository.delete, hi, hst]
    · intro h01
      exact absurd h01 (by omega)
  · have hsum := length_filter_not_add_countP (fun d => jsIdEq d i) items
    by_cases heq : items.length = (items.filter (fun item => !(jsIdEq item i))).length
    · refine ⟨0, items, ?_, ?_, by omega, by omega, ?_⟩
      · simp [Repository.delete, hi, hst, heq]
      · simp [Repository.delete, hi, hst, heq]
      · intro h01
        exact absurd h01 (by omega)
    · have hflt : ∀ d ∈ items.filter (fun item => !(jsIdEq item i)), jsIdEq d i = false := by
        intro d hd
        simpa using (List.mem_filter.mp hd).2
      have hsecond : (items.filter (fun item => !(jsIdEq item i))).filter
            (fun item => !(jsIdEq item i))
          = items.filter (fun item => !(jsIdEq item i)) :=
        List.filter_eq_self.mpr (by intro d hd; simpa using hflt d hd)
      have hdel : Repository.delete st i
          = ⟨some (.jsonArr (items.filter (fun item => !(jsIdEq item i)))), 1, .ok 1⟩ := by
        simp [Repository.delete, hi, hst, heq]
      refine ⟨1, items.filter (fun item => !(jsIdEq item i)), ?_, ?_, ?_, le_refl 1, ?_⟩
      · rw [hdel]
      · rw [hdel]
        rfl
      · have hc : items.countP (fun d => jsIdEq d i) ≠ 0 := by
          intro h0
          rw [h0] at hsum
          omega
        omega
      · intro h11
        refine ⟨?_, hflt, ?_⟩
        · rw [hdel]
          rfl
        · rw [hdel]
          simp [Repository.delete, hi, readAll, hsecond]

/-- C4 witness: two distinctly identified documents, deleting "a". -/
theorem C4_witness :
    ∃ n items2,
      (Repository.delete
          (some (.jsonArr [[(idKey, Val.vStr "a")], [(idKey, Val.vStr "b")]])) "a").result
        = .ok n ∧
      readAll (Repository.delete
          (some (.jsonArr [[(idKey, Val.vStr "a")], [(idKey, Val.vStr "b")]])) "a").store
        = .ok items2 ∧
      n = ([[(idKey, Val.vStr "a")], [(idKey, Val.vStr "b")]] : List Doc).length
          - items2.length ∧ n ≤ 1 ∧
      (n = 1 →
        Repository.read (Repository.delete
            (some (.jsonArr [[(idKey, Val.vStr "a")], [(idKey, Val.vStr "b")]])) "a").store
          none = .ok items2 ∧
        (∀ d ∈ items2, jsIdEq d "a" = false) ∧
        (Repository.delete (Repository.delete
            (some (.jsonArr [[(idKey, Val.vStr "a")], [(idKey, Val.vStr "b")]])) "a").store
          "a").result = .ok 0) :=
  C4_delete_correct _ _ _ rfl (by decide)

/-- C5: when a stored document is found by identifier `i`, `update(i, upd)`
replaces it in place by the spread-merge of the stored document with `upd`
minus its `_id` field: the merged document keeps `_id = i` (the `_id` supplied
inside `upd` is discarded), every non-`_id` field present in `upd` overwrites
the stored value, and every field absent from `upd` is preserved; the rest of
the collection is untouched and exactly one write occurs.  `upd` has unique
keys, as every JavaScript object literal does. -/
theorem C5_update_merge (st : Option StoredVal) (i : String) (upd : Doc)
    (items : List Doc) (index : Nat)
    (hst : readAll st = .ok items) (hi : i ≠ "")
    (hfind : items.findIdx? (fun item => jsIdEq item i) = some index)
    (hnodup : (keys upd).Nodup) :
    ∃ orig merged,
      items.get? index = some orig ∧
      Repository.update st i upd
        = ⟨some (.jsonArr (items.set index merged)), 1, .ok 1⟩ ∧
      getField merged idKey = some (.vStr i) ∧
      (∀ k v, k ≠ idKey → getField upd k = some v → getField merged k = some v) ∧
      (∀ k, getField upd k = none → getField merged k = getField orig k) := by
  obtain ⟨hlen, hp, -⟩ := List.findIdx?_eq_some_iff_getElem.mp hfind
  have hget : items.get? index = some items[index] := by
    rw [List.get?_eq_getElem?, List.getElem?_eq_getElem hlen]
  have hid : getField items[index] idKey = some (.vStr i) := (jsIdEq_eq_true_iff _ _).mp hp
  have hnodup2 : (keys (removeField upd idKey)).Nodup :=
    (keys_removeField_sublist upd idKey).nodup hnodup
  refine ⟨items[index], mergeDoc items[index] (removeField upd idKey), hget, ?_, ?_, ?_, ?_⟩
  · simp [Repository.update, hi, hst, hfind, List.getElem?_eq_getElem hlen]
  · rw [getField_mergeDoc, lastField_removeField_self]
    exact hid
  · intro k v hk hup
    rw [getField_mergeDoc]
    have h1 : lastField (removeField upd idKey) k = some v := by
      rw [lastField_eq_getField _ _ hnodup2, getField_removeField, if_neg hk, hup]
    rw [h1]
  · intro k hup
    rw [getField_mergeDoc]
    have h1 : getField (removeField upd idKey) k = none := by
      rw [getField_removeField]
      by_cases hk : k = idKey
      · rw [if_pos hk]
      · rw [if_neg hk, hup]
    have h2 : lastField (removeField upd idKey) k = none :=
      (lastField_eq_none_iff _ _).mpr h1
    rw [h2]

/-- C5 witness: one stored document, an update object carrying a foreign
`_id` and one overwritten field. -/
theorem C5_witness :
    ∃ orig merged,
      ([[(idKey, Val.vStr "a"), ("t", Val.vStr "1"), ("u", Val.vStr "2")]] : List Doc).get? 0
        = some orig ∧
      Repository.update
          (some (.jsonArr [[(idKey, Val.vStr "a"), ("t", Val.vStr "1"), ("u", Val.vStr "2")]]))
          "a" [(idKey, Val.vStr "other"), ("t", Val.vStr "9")]
        = ⟨some (.jsonArr
            (([[(idKey, Val.vStr "a"), ("t", Val.vStr "1"), ("u", Val.vStr "2")]] : List Doc).set
              0 merged)), 1, .ok 1⟩ ∧
      getField merged idKey = some (.vStr "a") ∧
      (∀ k v, k ≠ idKey →
        getField [(idKey, Val.vStr "other"), ("t", Val.vStr "9")] k = some v →
        getField merged k = some v) ∧
      (∀ k, getField [(idKey, Val.vStr "other"), ("t", Val.vStr "9")] k = none →
        getField merged k = getField orig k) :=
  C5_update_merge _ _ _ _ 0 rfl (by decide) (by decide) (by decide)

/-- C7: `updateMany` refines the specification-side runner `specRunUpdates`,
which applies `update` once per entry in input order: when no call fails, it
produces one per-call result per entry, `updateMany` returns their sum, and
both reach the same final store; on the empty input `updateMany` returns 0
with no write and an untouched store. -/
theorem C7_updateMany_sums (st : Option StoredVal) (entries : List (String × Doc))
    (h : (specRunUpdates st entries).2.2 = false) :
    Repository.updateMany st [] = ⟨st, 0, .ok 0⟩ ∧
    (Repository.updateMany st entries).result
      = .ok (specRunUpdates st entries).2.1.sum ∧
    (Repository.updateMany st entries).store = (specRunUpdates st entries).1 ∧
    (specRunUpdates st entries).2.1.length = entries.length := by
  refine ⟨rfl, ?_, ?_, specRunUpdates_length entries st h⟩
  · cases entries with
    | nil => simp [Repository.updateMany, specRunUpdates]
    | cons e rest =>
      have hgo := updateManyGo_spec (e :: rest) st 0 0 h
      simpa [Repository.updateMany] using hgo.1
  · cases entries with
    | nil => simp [Repository.updateMany, specRunUpdates]
    | cons e rest =>
      have hgo := updateManyGo_spec (e :: rest) st 0 0 h
      simpa [Repository.updateMany] using hgo.2

/-- C7 witness: one stored document, two entries (one hit, one miss). -/
theorem C7_witness :
    Repository.updateMany (some (.jsonArr [[(idKey, Val.vStr "a")]])) []
      = ⟨some (.jsonArr [[(idKey, Val.vStr "a")]]), 0, .ok 0⟩ ∧
    (Repository.updateMany (some (.jsonArr [[(idKey, Val.vStr "a")]]))
        [("a", [("t", Val.vStr "2")]), ("zzz", [("t", Val.vStr "3")])]).result
      = .ok (specRunUpdates (some (.jsonArr [[(idKey, Val.vStr "a")]]))
          [("a", [("t", Val.vStr "2")]), ("zzz", [("t", Val.vStr "3")])]).2.1.sum ∧
    (Repository.updateMany (some (.jsonArr [[(idKey, Val.vStr "a")]]))
        [("a", [("t", Val.vStr "2")]), ("zzz", [("t", Val.vStr "3")])]).store
      = (specRunUpdates (some (.jsonArr [[(idKey, Val.vStr "a")]]))
          [("a", [("t", Val.vStr "2")]), ("zzz", [("t", Val.vStr "3")])]).1 ∧
    (specRunUpdates (some (.jsonArr [[(idKey, Val.vStr "a")]]))
        [("a", [("t", Val.vStr "2")]), ("zzz", [("t", Val.vStr "3")])]).2.1.length
      = ([("a", [("t", Val.vStr "2")]), ("zzz", [("t", Val.vStr "3")])]
          : List (String × Doc)).length :=
  C7_updateMany_sums _ _ (by decide)

end LocalRepo
